import Mathlib

/-!
Shallow embedding of the zli argument-processing pipeline: the tokenizer
(parseFlags with its addFlag helper), alias resolution (resolveAliases),
naming-convention resolution (camelToKebab, resolveKebabCase), array
normalization (isZodArrayType, normalizeArrayFields), option validation
(validateOptions), command execution (processCommandExecution) and the
entry point (processConfig).

Modelling conventions: a JavaScript string is a list of characters; a
JavaScript object used as a string-keyed record is an association list
whose keys are unique, with JS insertion-order semantics (updating an
existing key keeps its position, a fresh key is appended); the external
zod validator is a parse function carried by the schema next to its
declared field shape; `process.exit(0)` after help rendering and thrown
errors are reified in the `Outcome` type, together with which help screen
was written to the console before terminating.
-/

/-- A JavaScript string, modelled as its list of characters. -/
abbrev Str := List Char

/-- A value stored in the parsed-flags record: a boolean, a string, or an
array built up by repeated occurrences of the same flag (the reserved `_`
key holds the array of positional strings). -/
inductive FlagValue where
  | bool (b : Bool)
  | str (s : Str)
  | list (xs : List FlagValue)

/-- JS object property read: the binding of `key` (keys are unique). -/
def jsGet {β : Type} (record : List (Str × β)) (key : Str) : Option β :=
  match record with
  | [] => none
  | (k, v) :: rest => if k = key then some v else jsGet rest key

/-- JS object property write: update in place when the key exists, append
otherwise (JS insertion-order semantics). -/
def jsSet {β : Type} (record : List (Str × β)) (key : Str) (value : β) :
    List (Str × β) :=
  match record with
  | [] => [(key, value)]
  | (k, v) :: rest =>
    if k = key then (k, value) :: rest else (k, v) :: jsSet rest key value

/-- JS `delete record[key]`. -/
def jsDelete {β : Type} (record : List (Str × β)) (key : Str) :
    List (Str × β) :=
  match record with
  | [] => []
  | (k, v) :: rest => if k = key then rest else (k, v) :: jsDelete rest key

/-- The keys of the record are pairwise distinct, as they always are for a
JavaScript object. -/
def uniqueKeys {β : Type} : List (Str × β) → Bool
  | [] => true
  | (k, _) :: rest => (jsGet rest k).isNone && uniqueKeys rest

/-- The flag bag: the record built by the tokenizer. -/
abbrev Bag := List (Str × FlagValue)

/-- JS `arg.startsWith('-')`. -/
def startsWithDash : Str → Bool
  | c :: _ => c == '-'
  | [] => false

/-- JS `arg.startsWith('--')`. -/
def startsWithDashDash : Str → Bool
  | c1 :: c2 :: _ => c1 == '-' && c2 == '-'
  | _ => false

/-- The tokenizer's addFlag helper: a first occurrence of a key stores the
raw value, a second occurrence turns the slot into a two-element array of
the first and second values, and every later occurrence pushes onto that
array. -/
def addFlag (flags : Bag) (key : Str) (value : FlagValue) : Bag :=
  match jsGet flags key with
  | some (FlagValue.list xs) => jsSet flags key (FlagValue.list (xs ++ [value]))
  | some existing => jsSet flags key (FlagValue.list [existing, value])
  | none => jsSet flags key value

/-- The loop body of parseFlags: walk the argument vector left to right
with one token of lookahead, building the flag record and the positional
list (nonFlags). Empty-string tokens are falsy in JS and are skipped. A
long flag containing an equals sign is split at the first equals sign
(JS `key.split('=')` keeps the first part as the flag name and rejoins the
remaining parts with equals signs, which is everything after the first
one, verbatim); a falsy (empty) flag name adds nothing. A long flag with
no equals sign, and a single-dash token whose remainder is one character,
consume the next token as their value when it is truthy (non-empty) and
does not start with a dash; otherwise they become boolean true. A
single-dash token with a longer remainder registers each character as its
own boolean-true flag and consumes nothing. Anything else is a
positional. One iteration of the loop either advances the index by one
token or, when a flag consumes the following token as its value, by two;
`parseFlagsStep` computes the iteration's effect and `parseFlagsLoop`
advances accordingly. -/
inductive StepInstr where
  | consumeOne (flags : Bag) (nonFlags : List Str)
  | consumeTwo (flags : Bag) (nonFlags : List Str)

/-- One iteration of the parseFlags loop on the current token `arg`, with
`rest` the tokens after it (so `rest.head?` is the JS lookahead at the
next index): the updated flag record and positional list, together with
how many tokens the iteration consumed. -/
def parseFlagsStep (arg : Str) (rest : List Str) (flags : Bag)
    (nonFlags : List Str) : StepInstr :=
  if arg = [] then StepInstr.consumeOne flags nonFlags
  else if startsWithDashDash arg then
    let key := arg.drop 2
    if key.contains '=' then
      let flagName := key.takeWhile (fun c => c != '=')
      let value := (key.dropWhile (fun c => c != '=')).drop 1
      if flagName = [] then StepInstr.consumeOne flags nonFlags
      else StepInstr.consumeOne (addFlag flags flagName (FlagValue.str value)) nonFlags
    else
      match rest.head? with
      | some nextArg =>
        if nextArg ≠ [] ∧ startsWithDash nextArg = false then
          StepInstr.consumeTwo (addFlag flags key (FlagValue.str nextArg)) nonFlags
        else StepInstr.consumeOne (addFlag flags key (FlagValue.bool true)) nonFlags
      | none => StepInstr.consumeOne (addFlag flags key (FlagValue.bool true)) nonFlags
  else if startsWithDash arg ∧ 1 < arg.length then
    let key := arg.drop 1
    if key.length = 1 then
      match rest.head? with
      | some nextArg =>
        if nextArg ≠ [] ∧ startsWithDash nextArg = false then
          StepInstr.consumeTwo (addFlag flags key (FlagValue.str nextArg)) nonFlags
        else StepInstr.consumeOne (addFlag flags key (FlagValue.bool true)) nonFlags
      | none => StepInstr.consumeOne (addFlag flags key (FlagValue.bool true)) nonFlags
    else
      StepInstr.consumeOne
        (key.foldl (fun fl c => addFlag fl [c] (FlagValue.bool true)) flags) nonFlags
  else StepInstr.consumeOne flags (nonFlags ++ [arg])

/-- The parseFlags loop: run iterations until the vector is exhausted. The
first parameter is fuel bounding the number of iterations; `tokenize`
passes the token count, which always suffices because every iteration
consumes at least one token, so the fuel-exhausted clause is unreachable
from `tokenize` (and `parseFlagsLoop_fuel_eq` shows any sufficient fuel
computes the same result). -/
def parseFlagsLoop : Nat → List Str → Bag → List Str → Bag × List Str
  | _, [], flags, nonFlags => (flags, nonFlags)
  | 0, _ :: _, flags, nonFlags => (flags, nonFlags)
  | fuel + 1, arg :: rest, flags, nonFlags =>
    match parseFlagsStep arg rest flags nonFlags with
    | StepInstr.consumeOne flags2 nonFlags2 => parseFlagsLoop fuel rest flags2 nonFlags2
    | StepInstr.consumeTwo flags2 nonFlags2 => parseFlagsLoop fuel rest.tail flags2 nonFlags2

/-- The tokenizer from a given remaining argument vector and accumulated
state: runs the loop with as much fuel as there are tokens. -/
def tokenize (args : List Str) (flags : Bag) (nonFlags : List Str) : Bag × List Str :=
  parseFlagsLoop args.length args flags nonFlags

/-- The reserved key under which parseFlags stores the positional list. -/
def underscoreKey : Str := ['_']

/-- The reserved help flag key. -/
def helpKey : Str := "help".toList

/-- parseFlags: the flag record with the positional list stored under the
reserved key `_` (mirroring the final spread of flags with the nonFlags
array), paired with that same positional list, which is what processConfig
reads back out of the `_` key. parseFlagsLoop never registers a flag named
`_` twice in a way that survives: the final assignment always overwrites
any `_` entry, exactly as the JS object spread does. -/
def parseFlags (args : List Str) : Bag × List Str :=
  let r := tokenize args [] []
  (jsSet r.1 underscoreKey (FlagValue.list (r.2.map FlagValue.str)), r.2)

/-- resolveAliases: for each alias entry in order, when the alias key is
present its value is written to the target key and the alias key deleted,
so an alias value overwrites any pre-existing value at the target key. -/
def resolveAliases (flags : Bag) (aliases : Option (List (Str × Str))) : Bag :=
  match aliases with
  | none => flags
  | some entries =>
    entries.foldl
      (fun resolved entry =>
        match jsGet resolved entry.1 with
        | some v => jsDelete (jsSet resolved entry.2 v) entry.1
        | none => resolved)
      flags

/-- camelToKebab: replace every ASCII uppercase letter by a hyphen followed
by its lowercase form (JS `str.replace` with an A-Z regex). -/
def camelToKebab (s : Str) : Str :=
  s.foldr
    (fun letter acc =>
      if letter.isUpper then '-' :: letter.toLower :: acc else letter :: acc)
    []

/-- The shape of a zod type, as far as the pipeline inspects it: content
types (string, boolean, array) and the wrapper types optional and default
that isZodArrayType unwraps. -/
inductive ZodType where
  | zodString
  | zodBoolean
  | zodArray (element : ZodType)
  | zodOptional (inner : ZodType)
  | zodDefault (inner : ZodType)

/-- One structured validation issue: a field path and a message. -/
abbrev ZodIssue := List Str × Str

/-- The issue list carried by the validator's native error (ZodError). -/
abbrev ZodIssues := List ZodIssue

/-- A validated output value (what zod's parse returns). -/
inductive Value where
  | bool (b : Bool)
  | str (s : Str)
  | arr (elems : List Value)
  | obj (fields : List (Str × Value))

/-- A zod object schema as the pipeline consumes it: its declared field
shape (for key discovery and array introspection) and its parse function,
the external validation capability, which either returns a value or fails
with the native ZodError issue list. -/
structure OptionsSchema where
  shape : List (Str × ZodType)
  parse : Bag → Except ZodIssues Value

/-- An options definition: schema plus optional alias map. -/
structure OptionsDefinition where
  schema : OptionsSchema
  aliases : Option (List (Str × Str)) := none

/-- A positional-arguments schema: the external parse capability over the
raw positional string list. -/
structure ArgsSchema where
  parse : List Str → Except ZodIssues Value

/-- A command definition (the action callback is irrelevant to the
processing pipeline and is omitted). -/
structure CommandDefinition where
  description : Option Str := none
  options : Option OptionsDefinition := none
  args : Option ArgsSchema := none

/-- The CLI configuration: the command registry and the optional default
command (the meta block only feeds help-text rendering and is omitted). -/
structure DefineConfig where
  commands : List (Str × CommandDefinition)
  defaultCommand : Option CommandDefinition := none

/-- The successful processing result. When a command has no args schema the
raw positional strings pass through unvalidated; they are injected into
`Value` as an array of strings. -/
structure ProcessResult where
  command : CommandDefinition
  options : Value
  args : Value

/-- resolveKebabCase: for each schema key in declaration order, when the
camel-case key is absent from the record and its kebab-case form is
present, move the kebab-case entry's value to the camel-case key and
delete the kebab-case key; when the camel-case key is already present,
nothing happens. -/
def resolveKebabCase (flags : Bag) (schema : OptionsSchema) : Bag :=
  (schema.shape.map Prod.fst).foldl
    (fun resolved camelKey =>
      match jsGet resolved camelKey with
      | some _ => resolved
      | none =>
        match jsGet resolved (camelToKebab camelKey) with
        | some v => jsDelete (jsSet resolved camelKey v) (camelToKebab camelKey)
        | none => resolved)
    flags

/-- isZodArrayType: unwrap optional and default wrapper layers (and only
those), then check whether the remaining type is an array type. -/
def isZodArrayType : ZodType → Bool
  | ZodType.zodOptional inner => isZodArrayType inner
  | ZodType.zodDefault inner => isZodArrayType inner
  | ZodType.zodArray _ => true
  | _ => false

/-- JS `Array.isArray` on a flag value. -/
def isArrayValue : FlagValue → Bool
  | FlagValue.list _ => true
  | _ => false

/-- normalizeArrayFields: for each declared field, when the record holds a
non-array value for an array-typed field, wrap it in a one-element array;
absent fields and fields that already hold arrays are untouched. -/
def normalizeArrayFields (options : Bag) (schema : OptionsSchema) : Bag :=
  schema.shape.foldl
    (fun normalized field =>
      match jsGet normalized field.1 with
      | some v =>
        if isZodArrayType field.2 && !(isArrayValue v) then
          jsSet normalized field.1 (FlagValue.list [v])
        else normalized
      | none => normalized)
    options

/-- An error thrown by the pipeline: either a plain `new Error(msg)` or the
validator's native ZodError carrying its issue list. -/
inductive Thrown where
  | error (msg : Str)
  | zodError (issues : ZodIssues)

/-- Which help screen was written to the console before terminating. -/
inductive Display where
  | nothing
  | topHelp
  | cmdHelp (name : Str)

/-- The observable outcome of processConfig: a returned result, a
successful process exit after rendering help, or a thrown error (with
whatever help screen was rendered first). -/
inductive Outcome where
  | ok (r : ProcessResult)
  | exited (d : Display)
  | thrown (d : Display) (e : Thrown)

/-- An exception escaping processCommandExecution propagates out of
processConfig with nothing rendered. -/
def liftE (r : Except Thrown ProcessResult) : Outcome :=
  match r with
  | Except.ok pr => Outcome.ok pr
  | Except.error e => Outcome.thrown Display.nothing e

/-- JS `parsedFlags.help === true`: strict equality with boolean true. -/
def strictlyTrue : Option FlagValue → Bool
  | some (FlagValue.bool true) => true
  | _ => false

/-- The message of the error thrown when no command token is present and no
default command is configured. -/
def noCommandMessage : Str := "No command specified.".toList

/-- The message of the error thrown for an unregistered command token (the
token is wrapped in ANSI cyan). -/
def unknownCommandMessage (name : Str) : Str :=
  "Unknown command: \x1b[36m".toList ++ name ++ "\x1b[0m".toList

/-- The aggregation of ZodError issues used for args validation failures:
each issue rendered as its dot-joined path, a colon and its message, the
issues joined comma-separated. -/
def formatZodIssues (issues : ZodIssues) : Str :=
  List.intercalate (", ".toList)
    (issues.map (fun issue =>
      List.intercalate (".".toList) issue.1 ++ (": ".toList) ++ issue.2))

/-- The message of the wrapped args-validation error. -/
def argumentValidationFailedMessage (issues : ZodIssues) : Str :=
  "Argument validation failed: ".toList ++ formatZodIssues issues

/-- validateOptions: with no options definition the result is the empty
object, whatever flags were passed. Otherwise resolve aliases, then
kebab-case names, drop the `_` carrier key, normalize array fields and
hand the record to the schema's parse; a parse failure propagates as the
validator's native error, uncaught. -/
def validateOptions (flags : Bag) (optionsDef : Option OptionsDefinition) :
    Except Thrown Value :=
  match optionsDef with
  | none => Except.ok (Value.obj [])
  | some od =>
    let resolvedAliases := resolveAliases flags od.aliases
    let resolvedKebab := resolveKebabCase resolvedAliases od.schema
    let options := jsDelete resolvedKebab underscoreKey
    let normalizedOptions := normalizeArrayFields options od.schema
    match od.schema.parse normalizedOptions with
    | Except.ok v => Except.ok v
    | Except.error issues => Except.error (Thrown.zodError issues)

/-- processCommandExecution: validate options (any failure there escapes
unchanged), then validate args when a schema is declared, catching the
validator's native error and re-signaling it as a plain error with the
aggregated message; without an args schema the raw strings pass through. -/
def processCommandExecution (command : CommandDefinition) (parsedFlags : Bag)
    (args : List Str) : Except Thrown ProcessResult :=
  match validateOptions parsedFlags command.options with
  | Except.error e => Except.error e
  | Except.ok options =>
    match command.args with
    | none =>
      Except.ok { command := command, options := options,
                  args := Value.arr (args.map Value.str) }
    | some schema =>
      match schema.parse args with
      | Except.ok v => Except.ok { command := command, options := options, args := v }
      | Except.error issues =>
        Except.error (Thrown.error (argumentValidationFailedMessage issues))

/-- processConfig: tokenize, then resolve the command. The JS code tests
`!commandName` on the first positional; parseFlagsLoop skips empty tokens,
so a positional is never the (falsy) empty string and the test is exactly
emptiness of the positional list (see parseFlags_positionals_nonempty). -/
def processConfig (config : DefineConfig) (args : List Str) : Outcome :=
  let parsedFlags := (parseFlags args).1
  let commandArgs := (parseFlags args).2
  match commandArgs.head? with
  | none =>
    if strictlyTrue (jsGet parsedFlags helpKey) then
      Outcome.exited Display.topHelp
    else
      match config.defaultCommand with
      | some dc => liftE (processCommandExecution dc parsedFlags commandArgs)
      | none => Outcome.thrown Display.topHelp (Thrown.error noCommandMessage)
  | some commandName =>
    match jsGet config.commands commandName with
    | none =>
      Outcome.thrown Display.topHelp (Thrown.error (unknownCommandMessage commandName))
    | some command =>
      if strictlyTrue (jsGet parsedFlags helpKey) then
        Outcome.exited (Display.cmdHelp commandName)
      else
        liftE (processCommandExecution command parsedFlags (commandArgs.drop 1))

/-! Concrete fixtures used to evaluate the pipeline at the inputs named by
the specification and the repository's test suite. -/

/-- A command registered without an options definition and without an args
schema (only its action, which the pipeline ignores). -/
def cmdPlain : CommandDefinition := {}

/-- A registry holding the single command `test` and no default command. -/
def cfgPlain : DefineConfig := { commands := [(("test".toList), cmdPlain)] }

/-- A zod object schema with a single required string field called name:
parsing succeeds when the record binds name to a string and fails with
the issue zod reports for a missing required field otherwise. -/
def nameRequiredSchema : OptionsSchema where
  shape := [(("name".toList), ZodType.zodString)]
  parse := fun record =>
    match jsGet record ("name".toList) with
    | some (FlagValue.str s) => Except.ok (Value.obj [(("name".toList), Value.str s)])
    | _ => Except.error [([("name".toList)], "Required".toList)]

/-- A command whose options schema requires the string field `name`. -/
def cmdNameRequired : CommandDefinition :=
  { options := some { schema := nameRequiredSchema } }

/-- A registry holding only the `test` command requiring `--name`. -/
def cfgNameRequired : DefineConfig :=
  { commands := [(("test".toList), cmdNameRequired)] }

/-- An args schema whose validation always fails with one issue, standing
for any failing positional validation. -/
def argsFailSchema : ArgsSchema where
  parse := fun _ => Except.error [([("0".toList)], "Required".toList)]

/-- A command with no options but a failing args schema. -/
def cmdArgsFail : CommandDefinition := { args := some argsFailSchema }

/-! Record lemmas: JS object reads after writes and deletes. -/

theorem jsGet_jsSet_self {β : Type} (record : List (Str × β)) (key : Str) (value : β) :
    jsGet (jsSet record key value) key = some value := by
  induction record with
  | nil => simp [jsSet, jsGet]
  | cons entry rest ih =>
    obtain ⟨k, v⟩ := entry
    by_cases h : k = key
    · simp [jsSet, jsGet, h]
    · simp [jsSet, jsGet, h, ih]

theorem jsGet_jsSet_ne {β : Type} (record : List (Str × β)) (key key2 : Str) (value : β)
    (h : key2 ≠ key) : jsGet (jsSet record key value) key2 = jsGet record key2 := by
  have h2 : key ≠ key2 := Ne.symm h
  induction record with
  | nil => simp [jsSet, jsGet, h2]
  | cons entry rest ih =>
    obtain ⟨k, v⟩ := entry
    by_cases hk : k = key
    · subst hk
      simp [jsSet, jsGet, h2]
    · by_cases hk2 : k = key2
      · simp [jsSet, jsGet, hk, hk2, h]
      · simp [jsSet, jsGet, hk, hk2, ih]

theorem jsGet_jsDelete_ne {β : Type} (record : List (Str × β)) (key key2 : Str)
    (h : key2 ≠ key) : jsGet (jsDelete record key) key2 = jsGet record key2 := by
  have h2 : key ≠ key2 := Ne.symm h
  induction record with
  | nil => simp [jsDelete]
  | cons entry rest ih =>
    obtain ⟨k, v⟩ := entry
    by_cases hk : k = key
    · subst hk
      simp [jsDelete, jsGet, h2]
    · by_cases hk2 : k = key2
      · simp [jsDelete, jsGet, hk, hk2, h]
      · simp [jsDelete, jsGet, hk, hk2, ih]

theorem uniqueKeys_jsSet {β : Type} (record : List (Str × β)) (key : Str) (value : β)
    (h : uniqueKeys record = true) : uniqueKeys (jsSet record key value) = true := by
  induction record with
  | nil => simp [jsSet, uniqueKeys, jsGet]
  | cons entry rest ih =>
    obtain ⟨k, v⟩ := entry
    rw [uniqueKeys, Bool.and_eq_true] at h
    have h1 : jsGet rest k = none := Option.isNone_iff_eq_none.mp h.1
    by_cases hk : k = key
    · subst hk
      simp [jsSet, uniqueKeys, h1, h.2]
    · rw [jsSet, if_neg hk, uniqueKeys, Bool.and_eq_true]
      refine ⟨?_, ih h.2⟩
      rw [jsGet_jsSet_ne rest key k value hk]
      simp [h1]

theorem jsGet_jsDelete_self {β : Type} (record : List (Str × β)) (key : Str)
    (h : uniqueKeys record = true) : jsGet (jsDelete record key) key = none := by
  induction record with
  | nil => simp [jsDelete, jsGet]
  | cons entry rest ih =>
    obtain ⟨k, v⟩ := entry
    rw [uniqueKeys, Bool.and_eq_true] at h
    by_cases hk : k = key
    · subst hk
      rw [jsDelete, if_pos rfl]
      exact Option.isNone_iff_eq_none.mp h.1
    · rw [jsDelete, if_neg hk, jsGet, if_neg hk]
      exact ih h.2

/-! Character-list lemmas about the split of a long flag at its first
equals sign. -/

theorem contains_eq_of_mem (s : Str) (h : '=' ∈ s) : s.contains '=' = true := by
  simp [List.contains, List.elem_eq_mem, h]

theorem takeWhile_append_eq (k v : Str) (hk : '=' ∉ k) :
    (k ++ '=' :: v).takeWhile (fun c => c != '=') = k := by
  induction k with
  | nil => simp [List.takeWhile_cons]
  | cons c cs ih =>
    have hc : c ≠ '=' := by
      intro hcc
      exact hk (hcc ▸ List.mem_cons_self c cs)
    have hcs : '=' ∉ cs := fun hm => hk (List.mem_cons_of_mem c hm)
    simp only [List.cons_append, List.takeWhile_cons]
    simp [hc, ih hcs]

theorem dropWhile_append_eq (k v : Str) (hk : '=' ∉ k) :
    (k ++ '=' :: v).dropWhile (fun c => c != '=') = '=' :: v := by
  induction k with
  | nil => simp [List.dropWhile_cons]
  | cons c cs ih =>
    have hc : c ≠ '=' := by
      intro hcc
      exact hk (hcc ▸ List.mem_cons_self c cs)
    have hcs : '=' ∉ cs := fun hm => hk (List.mem_cons_of_mem c hm)
    simp only [List.cons_append, List.dropWhile_cons]
    simp [hc, ih hcs]

/-- liftE never produces the exit outcome: exits happen only on the two
help branches of processConfig. -/
theorem liftE_ne_exited (r : Except Thrown ProcessResult) (d : Display) :
    liftE r ≠ Outcome.exited d := by
  cases r <;> simp [liftE]

/-- C1: the claim says that processing test, --unknown against a command
whose schema does not declare unknown must fail with an UnknownOption
error naming the original spelling, before any schema validation. The
pipeline has no unknown-option detection anywhere: evaluating it at
exactly that input returns a successful result with empty options and no
error of any kind, the unknown flag being silently ignored. -/
theorem c1_unknown_flag_silently_ignored :
    processConfig cfgPlain [("test".toList), ("--unknown".toList)]
      = Outcome.ok { command := cmdPlain, options := Value.obj [], args := Value.arr [] } := rfl

/-- C2 counterexample: a failing options-schema validation is not caught
and re-signaled; the validator's native error (ZodError with its issue
list) escapes to the caller unchanged, refuting the claim that the native
exception type never propagates. -/
theorem c2_counterexample :
    processConfig cfgNameRequired [("test".toList)]
      = Outcome.thrown Display.nothing
          (Thrown.zodError [([("name".toList)], "Required".toList)]) := rfl

/-- C2 (amended): only positional-argument validation failures are caught
and re-signaled, as a plain error whose message is the prefix followed by
every field path and its reason, comma-separated; an option-validation
failure propagates out of processCommandExecution unchanged, and every
such failure is the validator's native ZodError. -/
theorem c2_validation_error_signaling (cmd : CommandDefinition) (bag : Bag)
    (args : List Str) :
    (∀ e, validateOptions bag cmd.options = Except.error e →
        processCommandExecution cmd bag args = Except.error e ∧
        ∃ issues, e = Thrown.zodError issues) ∧
    (∀ v s issues, validateOptions bag cmd.options = Except.ok v → cmd.args = some s →
        s.parse args = Except.error issues →
        processCommandExecution cmd bag args
          = Except.error (Thrown.error (argumentValidationFailedMessage issues))) := by
  constructor
  · intro e he
    refine ⟨by simp [processCommandExecution, he], ?_⟩
    rcases hco : cmd.options with _ | od
    · rw [hco] at he
      simp [validateOptions] at he
    · rw [hco] at he
      revert he
      simp only [validateOptions]
      cases od.schema.parse
          (normalizeArrayFields
            (jsDelete (resolveKebabCase (resolveAliases bag od.aliases) od.schema)
              underscoreKey)
            od.schema) with
      | ok vv => intro he; exact absurd he (by simp)
      | error issues =>
        intro he
        simp only [Except.error.injEq] at he
        exact ⟨issues, he.symm⟩
  · intro v s issues hv hs hp
    simp [processCommandExecution, hv, hs, hp]

/-- C2 witness: a concrete command whose args schema fails with one issue
yields the wrapped argument-validation error. -/
theorem c2_witness :
    processCommandExecution cmdArgsFail [] []
      = Except.error (Thrown.error
          (argumentValidationFailedMessage [([("0".toList)], "Required".toList)])) :=
  (c2_validation_error_signaling cmdArgsFail [] []).2 (Value.obj []) argsFailSchema
    [([("0".toList)], "Required".toList)] rfl rfl rfl

/-- C9: a command whose definition has no options definition yields the
empty options object whatever the flag bag holds, and the rest of the run
is fully determined by the args schema alone: no supplied flag is
reported or causes an error. -/
theorem c9_no_options_empty_object (cmd : CommandDefinition) (bag : Bag)
    (args : List Str) (h : cmd.options = none) :
    validateOptions bag cmd.options = Except.ok (Value.obj []) ∧
    processCommandExecution cmd bag args
      = (match cmd.args with
         | none =>
           Except.ok { command := cmd, options := Value.obj [],
                       args := Value.arr (args.map Value.str) }
         | some s =>
           match s.parse args with
           | Except.ok v =>
             Except.ok { command := cmd, options := Value.obj [], args := v }
           | Except.error issues =>
             Except.error (Thrown.error (argumentValidationFailedMessage issues))) := by
  constructor
  · rw [h]
    rfl
  · simp [processCommandExecution, validateOptions, h]

/-- C9 witness: a flag bag holding a stray flag against a command with no
options definition still returns empty options and no error. -/
theorem c9_witness :
    processCommandExecution cmdPlain [(("verbose".toList), FlagValue.bool true)] []
      = Except.ok { command := cmdPlain, options := Value.obj [], args := Value.arr [] } :=
  (c9_no_options_empty_object cmdPlain [(("verbose".toList), FlagValue.bool true)] [] rfl).2

/-- C4: repeated flag keys accumulate in addFlag: a first occurrence
stores the raw value, a second turns the slot into the two-element array
of the first and second values, and each later occurrence appends; in
particular tokenizing the files example yields the two-element array. -/
theorem c4_repeated_flag_accumulation (flags : Bag) (key : Str) (value : FlagValue) :
    (jsGet flags key = none → addFlag flags key value = jsSet flags key value) ∧
    (∀ v, jsGet flags key = some v → isArrayValue v = false →
        addFlag flags key value = jsSet flags key (FlagValue.list [v, value])) ∧
    (∀ xs, jsGet flags key = some (FlagValue.list xs) →
        addFlag flags key value = jsSet flags key (FlagValue.list (xs ++ [value]))) ∧
    jsGet (parseFlags [("--files".toList), ("a.txt".toList), ("--files".toList),
        ("b.txt".toList)]).1 ("files".toList)
      = some (FlagValue.list [FlagValue.str ("a.txt".toList), FlagValue.str ("b.txt".toList)]) := by
  refine ⟨?_, ?_, ?_, rfl⟩
  · intro h
    simp [addFlag, h]
  · intro v h hv
    cases v with
    | bool b => simp [addFlag, h]
    | str s => simp [addFlag, h]
    | list xs => simp [isArrayValue] at hv
  · intro xs h
    simp [addFlag, h]

/-- C4 witness: a first occurrence stores the raw value. -/
theorem c4_witness :
    addFlag [] ("files".toList) (FlagValue.str ("a.txt".toList))
      = jsSet [] ("files".toList) (FlagValue.str ("a.txt".toList)) :=
  (c4_repeated_flag_accumulation [] ("files".toList)
    (FlagValue.str ("a.txt".toList))).1 rfl

/-- C3 counterexample: with test registered and the help flag exactly
true, the run renders that command's help and terminates successfully; it
is not routed to the command, contradicting the claim's unconditional
final clause that a registered first positional is routed to with the
remaining positionals. -/
theorem c3_counterexample :
    processConfig cfgPlain [("test".toList), ("--help".toList)]
      = Outcome.exited (Display.cmdHelp ("test".toList)) := rfl

/-- C3 (amended): command resolution precedence. Empty positional list and
help exactly true: top-level help, successful exit (help wins over any
default command). Empty list, help not exactly true, default command
configured: routed to it with the entire positional list. Empty list, no
default: top-level help then the no-command error. First positional not
registered: top-level help then the unknown-command error naming the
token, even with a default command configured. First positional
registered: if help is exactly true, that command's help and successful
exit; otherwise routed to it with the remaining positionals. -/
theorem c3_command_resolution (config : DefineConfig) (args : List Str) :
    ((parseFlags args).2 = [] →
      (strictlyTrue (jsGet (parseFlags args).1 helpKey) = true →
          processConfig config args = Outcome.exited Display.topHelp) ∧
      (strictlyTrue (jsGet (parseFlags args).1 helpKey) = false →
        (∀ dc, config.defaultCommand = some dc →
            processConfig config args
              = liftE (processCommandExecution dc (parseFlags args).1 (parseFlags args).2)) ∧
        (config.defaultCommand = none →
            processConfig config args
              = Outcome.thrown Display.topHelp (Thrown.error noCommandMessage)))) ∧
    (∀ c rest, (parseFlags args).2 = c :: rest →
      (jsGet config.commands c = none →
          processConfig config args
            = Outcome.thrown Display.topHelp (Thrown.error (unknownCommandMessage c))) ∧
      (∀ cmd, jsGet config.commands c = some cmd →
        (strictlyTrue (jsGet (parseFlags args).1 helpKey) = true →
            processConfig config args = Outcome.exited (Display.cmdHelp c)) ∧
        (strictlyTrue (jsGet (parseFlags args).1 helpKey) = false →
            processConfig config args
              = liftE (processCommandExecution cmd (parseFlags args).1 rest)))) := by
  constructor
  · intro hpos
    constructor
    · intro hhelp
      simp [processConfig, hpos, hhelp]
    · intro hhelp
      constructor
      · intro dc hdc
        simp [processConfig, hpos, hhelp, hdc]
      · intro hdc
        simp [processConfig, hpos, hhelp, hdc]
  · intro c rest hpos
    constructor
    · intro hlook
      simp [processConfig, hpos, hlook]
    · intro cmd hlook
      constructor
      · intro hhelp
        simp [processConfig, hpos, hlook, hhelp]
      · intro hhelp
        simp [processConfig, hpos, hlook, hhelp]

/-- C3 witness: an unregistered token renders top-level help and throws
the unknown-command error naming it. -/
theorem c3_witness :
    processConfig cfgPlain [("zzz".toList)]
      = Outcome.thrown Display.topHelp (Thrown.error (unknownCommandMessage ("zzz".toList))) :=
  ((c3_command_resolution cfgPlain [("zzz".toList)]).2 ("zzz".toList) [] rfl).1 rfl

/-- C10: the help short-circuit (render help, exit successfully) fires
only when the help entry is exactly the boolean true: every exited
outcome implies strict truth of the help entry; a help flag that consumed
a following non-dash token holds that string, a doubled help flag holds a
two-element array, and in both concrete cases processing continues and
returns the routed result as if help had not been requested. -/
theorem c10_help_strict_short_circuit (config : DefineConfig) (args : List Str) :
    (∀ d, processConfig config args = Outcome.exited d →
        strictlyTrue (jsGet (parseFlags args).1 helpKey) = true) ∧
    jsGet (parseFlags [("--help".toList), ("foo".toList)]).1 helpKey
      = some (FlagValue.str ("foo".toList)) ∧
    jsGet (parseFlags [("--help".toList), ("--help".toList)]).1 helpKey
      = some (FlagValue.list [FlagValue.bool true, FlagValue.bool true]) ∧
    processConfig cfgPlain [("test".toList), ("--help".toList), ("foo".toList)]
      = Outcome.ok { command := cmdPlain, options := Value.obj [], args := Value.arr [] } ∧
    processConfig cfgPlain [("test".toList), ("--help".toList), ("--help".toList)]
      = Outcome.ok { command := cmdPlain, options := Value.obj [], args := Value.arr [] } := by
  refine ⟨?_, rfl, rfl, rfl, rfl⟩
  intro d h
  by_cases hh : strictlyTrue (jsGet (parseFlags args).1 helpKey) = true
  · exact hh
  · exfalso
    have hh2 : strictlyTrue (jsGet (parseFlags args).1 helpKey) = false := by
      simpa using hh
    cases hcs : (parseFlags args).2.head? with
    | none =>
      cases hdc : config.defaultCommand with
      | none => simp [processConfig, hcs, hh2, hdc] at h
      | some dc =>
        simp [processConfig, hcs, hh2, hdc] at h
        exact liftE_ne_exited _ _ h
    | some c =>
      cases hlook : jsGet config.commands c with
      | none => simp [processConfig, hcs, hlook] at h
      | some cmd =>
        simp [processConfig, hcs, hh2, hlook] at h
        exact liftE_ne_exited _ _ h

/-- C10 witness: a lone help flag tokenizes to exactly boolean true, as
the exited outcome demands. -/
theorem c10_witness :
    strictlyTrue (jsGet (parseFlags [("--help".toList)]).1 helpKey) = true :=
  (c10_help_strict_short_circuit cfgPlain [("--help".toList)]).1 Display.topHelp rfl

/-! Tokenizer step lemmas: a loop iteration consumes one or two tokens and
any sufficient fuel computes the same result. -/

theorem parseFlagsLoop_nil (fuel : Nat) (flags : Bag) (nf : List Str) :
    parseFlagsLoop fuel [] flags nf = (flags, nf) := by
  cases fuel <;> rfl

theorem parseFlagsLoop_fuel_eq (fuel : Nat) :
    ∀ (fuel2 : Nat) (args : List Str) (flags : Bag) (nf : List Str),
      args.length ≤ fuel → args.length ≤ fuel2 →
      parseFlagsLoop fuel args flags nf = parseFlagsLoop fuel2 args flags nf := by
  induction fuel with
  | zero =>
    intro fuel2 args flags nf h h2
    have : args = [] := List.eq_nil_of_length_eq_zero (Nat.le_zero.mp h)
    subst this
    rw [parseFlagsLoop_nil, parseFlagsLoop_nil]
  | succ n ih =>
    intro fuel2 args flags nf h h2
    cases args with
    | nil => rw [parseFlagsLoop_nil, parseFlagsLoop_nil]
    | cons arg rest =>
      cases fuel2 with
      | zero => simp at h2
      | succ m =>
        rw [parseFlagsLoop.eq_3, parseFlagsLoop.eq_3]
        cases hs : parseFlagsStep arg rest flags nf with
        | consumeOne flags2 nf2 =>
          exact ih m rest flags2 nf2 (by simp at h; omega) (by simp at h2; omega)
        | consumeTwo flags2 nf2 =>
          have ht : rest.tail.length ≤ rest.length := by
            cases rest <;> simp
          exact ih m rest.tail flags2 nf2 (by simp at h; omega) (by simp at h2; omega)

theorem startsWithDash_cons (c : Char) (s : Str) :
    startsWithDash (c :: s) = (c == '-') := rfl

theorem startsWithDashDash_cons2 (c1 c2 : Char) (s : Str) :
    startsWithDashDash (c1 :: c2 :: s) = ((c1 == '-') && (c2 == '-')) := rfl

theorem tokenize_consumeOne (arg : Str) (rest : List Str) (flags flags2 : Bag)
    (nf nf2 : List Str)
    (h : parseFlagsStep arg rest flags nf = StepInstr.consumeOne flags2 nf2) :
    tokenize (arg :: rest) flags nf = tokenize rest flags2 nf2 := by
  show parseFlagsLoop (arg :: rest).length (arg :: rest) flags nf = _
  rw [List.length_cons, parseFlagsLoop.eq_3, h]
  rfl

theorem tokenize_consumeTwo (arg nextArg : Str) (rest2 : List Str) (flags flags2 : Bag)
    (nf nf2 : List Str)
    (h : parseFlagsStep arg (nextArg :: rest2) flags nf = StepInstr.consumeTwo flags2 nf2) :
    tokenize (arg :: nextArg :: rest2) flags nf = tokenize rest2 flags2 nf2 := by
  show parseFlagsLoop (arg :: nextArg :: rest2).length (arg :: nextArg :: rest2) flags nf = _
  rw [List.length_cons, parseFlagsLoop.eq_3, h]
  show parseFlagsLoop ((nextArg :: rest2).length) rest2 flags2 nf2 = _
  exact parseFlagsLoop_fuel_eq _ _ rest2 flags2 nf2 (by simp) (by simp)

/-- A loop iteration leaves the positional list unchanged or appends the
current token, and only appends it when the token is non-empty (the
positional branch sits behind the falsy-token guard). -/
theorem parseFlagsStep_nonFlags_one (arg : Str) (rest : List Str) (flags : Bag)
    (nf : List Str) (flags2 : Bag) (nf2 : List Str)
    (hs : parseFlagsStep arg rest flags nf = StepInstr.consumeOne flags2 nf2) :
    nf2 = nf ∨ (nf2 = nf ++ [arg] ∧ arg ≠ []) := by
  unfold parseFlagsStep at hs
  dsimp only [] at hs
  repeat' split at hs
  all_goals simp_all

/-- A two-token iteration never touches the positional list. -/
theorem parseFlagsStep_nonFlags_two (arg : Str) (rest : List Str) (flags : Bag)
    (nf : List Str) (flags2 : Bag) (nf2 : List Str)
    (hs : parseFlagsStep arg rest flags nf = StepInstr.consumeTwo flags2 nf2) :
    nf2 = nf := by
  unfold parseFlagsStep at hs
  dsimp only [] at hs
  repeat' split at hs
  all_goals simp_all

theorem parseFlagsLoop_positionals (fuel : Nat) :
    ∀ (args : List Str) (flags : Bag) (nf : List Str), (∀ p ∈ nf, p ≠ []) →
      ∀ p ∈ (parseFlagsLoop fuel args flags nf).2, p ≠ [] := by
  induction fuel with
  | zero =>
    intro args flags nf h p hp
    cases args with
    | nil => rw [parseFlagsLoop_nil] at hp; exact h p hp
    | cons a rest => exact h p hp
  | succ n ih =>
    intro args flags nf h p hp
    cases args with
    | nil => rw [parseFlagsLoop_nil] at hp; exact h p hp
    | cons arg rest =>
      rw [parseFlagsLoop.eq_3] at hp
      cases hs : parseFlagsStep arg rest flags nf with
      | consumeOne flags2 nf2 =>
        rw [hs] at hp
        refine ih rest flags2 nf2 ?_ p hp
        rcases parseFlagsStep_nonFlags_one arg rest flags nf flags2 nf2 hs with he | ⟨he, hne⟩
        · subst he; exact h
        · subst he
          intro q hq
          rcases List.mem_append.mp hq with hq | hq
          · exact h q hq
          · rw [List.mem_singleton.mp hq]; exact hne
      | consumeTwo flags2 nf2 =>
        rw [hs] at hp
        refine ih rest.tail flags2 nf2 ?_ p hp
        rw [parseFlagsStep_nonFlags_two arg rest flags nf flags2 nf2 hs]
        exact h

/-- A positional is never the empty string: empty tokens are skipped by the
loop, so the falsy test on the first positional in processConfig is exactly
emptiness of the positional list. -/
theorem parseFlags_positionals_nonempty (args : List Str) :
    ∀ p ∈ (parseFlags args).2, p ≠ [] := by
  intro p hp
  exact parseFlagsLoop_positionals args.length args [] [] (by simp) p hp

/-- C5: a long-flag token containing an equals sign is split at the first
one only: for every non-empty key without an equals sign and every value,
even one containing further equals signs, the tokenizer registers the key
with the verbatim value and consumes nothing else; concretely the example
token yields the key and the equals-containing value split at the first
equals sign. -/
theorem c5_long_flag_equals_split (k v : Str) (rest : List Str) (flags : Bag)
    (nonFlags : List Str) (hk : k ≠ []) (hne : '=' ∉ k) :
    tokenize (('-' :: '-' :: (k ++ '=' :: v)) :: rest) flags nonFlags
      = tokenize rest (addFlag flags k (FlagValue.str v)) nonFlags ∧
    jsGet (parseFlags [("--key=value=with=equals".toList)]).1 ("key".toList)
      = some (FlagValue.str ("value=with=equals".toList)) := by
  refine ⟨?_, rfl⟩
  apply tokenize_consumeOne
  have hcontains : (k ++ '=' :: v).contains '=' = true :=
    contains_eq_of_mem _ (List.mem_append_right k (List.mem_cons_self '=' v))
  simp [parseFlagsStep, startsWithDashDash_cons2, hcontains,
        takeWhile_append_eq k v hne, dropWhile_append_eq k v hne, hk]

/-- C5 witness: the split applied at the concrete example token. -/
theorem c5_witness :
    tokenize (('-' :: '-' :: (("key".toList) ++ '=' :: ("value=with=equals".toList))) :: [])
        [] []
      = tokenize [] (addFlag [] ("key".toList) (FlagValue.str ("value=with=equals".toList))) [] :=
  (c5_long_flag_equals_split ("key".toList) ("value=with=equals".toList) [] [] []
      (by decide) (by decide)).1

/-- C6 counterexample: the claim's gloss of the lookahead rule says the
next token is consumed as the value whenever it exists and does not begin
with a dash; an empty-string next token exists and does not begin with a
dash, yet it is falsy in JS and is not consumed: the flag becomes boolean
true instead of the empty-string value. -/
theorem c6_counterexample :
    (parseFlags [(['-', 'a']), ([] : Str)]).1
      = [((['a'] : Str), FlagValue.bool true), (underscoreKey, FlagValue.list [])] := rfl

/-- C6 (amended): a single-dash token with a multi-character remainder
registers every character as its own boolean-true flag and never consumes
a following token; a single-dash token with a one-character remainder
follows the long-flag lookahead rule, where the next token is consumed as
the value iff it exists, is non-empty, and does not begin with a dash,
and otherwise the flag is boolean true. -/
theorem c6_short_flag_rules (key : Str) (c : Char) (nextArg : Str) (rest : List Str)
    (flags : Bag) (nonFlags : List Str) :
    (1 < key.length → startsWithDash key = false →
        tokenize (('-' :: key) :: rest) flags nonFlags
          = tokenize rest
              (key.foldl (fun fl ch => addFlag fl [ch] (FlagValue.bool true)) flags)
              nonFlags) ∧
    ((c == '-') = false →
      (nextArg ≠ [] → startsWithDash nextArg = false →
          tokenize (['-', c] :: nextArg :: rest) flags nonFlags
            = tokenize rest (addFlag flags [c] (FlagValue.str nextArg)) nonFlags) ∧
      (nextArg = [] ∨ startsWithDash nextArg = true →
          tokenize (['-', c] :: nextArg :: rest) flags nonFlags
            = tokenize (nextArg :: rest) (addFlag flags [c] (FlagValue.bool true)) nonFlags) ∧
      tokenize [['-', c]] flags nonFlags
        = (addFlag flags [c] (FlagValue.bool true), nonFlags)) ∧
    (parseFlags [("-abc".toList)]).1
      = [((['a'] : Str), FlagValue.bool true), ((['b'] : Str), FlagValue.bool true),
         ((['c'] : Str), FlagValue.bool true), (underscoreKey, FlagValue.list [])] ∧
    (parseFlags [("-abc".toList)]).2 = [] := by
  refine ⟨?_, ?_, rfl, rfl⟩
  · intro hlen hdash
    cases key with
    | nil => simp at hlen
    | cons k1 ks =>
      apply tokenize_consumeOne
      have hk1 : (k1 == '-') = false := hdash
      have h2 : 1 < ('-' :: k1 :: ks).length := by simp
      have h3 : ks ≠ [] := by
        intro he
        subst he
        simp at hlen
      simp [parseFlagsStep, startsWithDashDash_cons2, startsWithDash_cons, hk1, h2, h3]
  · intro hc
    refine ⟨?_, ?_, ?_⟩
    · intro hne hnd
      apply tokenize_consumeTwo
      simp [parseFlagsStep, startsWithDashDash_cons2, startsWithDash_cons, hc, hne, hnd]
    · intro hor
      apply tokenize_consumeOne
      rcases hor with hor | hor
      · subst hor
        simp [parseFlagsStep, startsWithDashDash_cons2, startsWithDash_cons, hc]
      · simp [parseFlagsStep, startsWithDashDash_cons2, startsWithDash_cons, hc, hor]
    · rw [tokenize_consumeOne ['-', c] [] flags (addFlag flags [c] (FlagValue.bool true))
          nonFlags nonFlags
          (by simp [parseFlagsStep, startsWithDashDash_cons2, startsWithDash_cons, hc])]
      rfl

/-- C6 witness: clustering applied to a concrete two-character token. -/
theorem c6_witness :
    tokenize (('-' :: ("ab".toList)) :: []) [] []
      = tokenize []
          (("ab".toList).foldl (fun fl ch => addFlag fl [ch] (FlagValue.bool true)) []) [] :=
  (c6_short_flag_rules ("ab".toList) 'x' [] [] [] []).1 (by decide) (by decide)

/-- C7: alias resolution gives the alias value precedence: when both the
alias key and its distinct target key are present, the target ends up
holding the alias's value and the alias key is removed; kebab-case
resolution moves the hyphenated entry's value to an absent canonical key
and deletes the hyphenated key, and leaves the record completely
untouched when the canonical key is already present; the two concrete
examples from the specification evaluate accordingly. -/
theorem c7_alias_and_kebab_resolution (flags : Bag) (aliasKey target camelKey : Str)
    (v : FlagValue) (t : ZodType) (p : Bag → Except ZodIssues Value) :
    (uniqueKeys flags = true → aliasKey ≠ target → jsGet flags aliasKey = some v →
        jsGet (resolveAliases flags (some [(aliasKey, target)])) target = some v ∧
        jsGet (resolveAliases flags (some [(aliasKey, target)])) aliasKey = none) ∧
    (uniqueKeys flags = true → jsGet flags camelKey = none →
        jsGet flags (camelToKebab camelKey) = some v →
        jsGet (resolveKebabCase flags { shape := [(camelKey, t)], parse := p }) camelKey
          = some v ∧
        jsGet (resolveKebabCase flags { shape := [(camelKey, t)], parse := p })
            (camelToKebab camelKey) = none) ∧
    (∀ w, jsGet flags camelKey = some w →
        resolveKebabCase flags { shape := [(camelKey, t)], parse := p } = flags) ∧
    resolveAliases [(("v".toList), FlagValue.bool true),
        (("verbose".toList), FlagValue.bool false)]
        (some [(("v".toList), ("verbose".toList))])
      = [(("verbose".toList), FlagValue.bool true)] ∧
    resolveKebabCase [(("android-max".toList), FlagValue.str ("10".toList))]
        { shape := [(("androidMax".toList), ZodType.zodString)], parse := p }
      = [(("androidMax".toList), FlagValue.str ("10".toList))] := by
  refine ⟨?_, ?_, ?_, rfl, rfl⟩
  · intro hu hne hget
    have hres : resolveAliases flags (some [(aliasKey, target)])
        = jsDelete (jsSet flags target v) aliasKey := by
      simp [resolveAliases, hget]
    rw [hres]
    constructor
    · rw [jsGet_jsDelete_ne _ _ _ (Ne.symm hne)]
      exact jsGet_jsSet_self flags target v
    · exact jsGet_jsDelete_self _ aliasKey (uniqueKeys_jsSet flags target v hu)
  · intro hu hcamel hkebab
    have hne : camelToKebab camelKey ≠ camelKey := by
      intro he
      rw [he, hcamel] at hkebab
      exact Option.noConfusion hkebab
    have hres : resolveKebabCase flags { shape := [(camelKey, t)], parse := p }
        = jsDelete (jsSet flags camelKey v) (camelToKebab camelKey) := by
      simp [resolveKebabCase, hcamel, hkebab]
    rw [hres]
    constructor
    · rw [jsGet_jsDelete_ne _ _ _ (Ne.symm hne)]
      exact jsGet_jsSet_self flags camelKey v
    · exact jsGet_jsDelete_self _ _ (uniqueKeys_jsSet flags camelKey v hu)
  · intro w hw
    simp [resolveKebabCase, hw]

/-- C7 witness: the alias example applied concretely. -/
theorem c7_witness :
    jsGet (resolveAliases [(("v".toList), FlagValue.bool true),
        (("verbose".toList), FlagValue.bool false)]
        (some [(("v".toList), ("verbose".toList))])) ("verbose".toList)
      = some (FlagValue.bool true) :=
  ((c7_alias_and_kebab_resolution
      [(("v".toList), FlagValue.bool true), (("verbose".toList), FlagValue.bool false)]
      ("v".toList) ("verbose".toList) ("androidMax".toList) (FlagValue.bool true)
      ZodType.zodString (fun _ => Except.ok (Value.obj []))).1 rfl (by decide) rfl).1

/-- C8: for a field whose declared type is array-shaped after unwrapping
optional and default wrappers, a present non-array value is replaced by
the one-element array holding it; absent fields, fields already holding
arrays, and non-array-typed fields are untouched; and the concrete files
example normalizes to a one-element array. -/
theorem c8_array_normalization (flags : Bag) (key : Str) (t : ZodType) (v : FlagValue)
    (p : Bag → Except ZodIssues Value) :
    (isZodArrayType t = true → jsGet flags key = some v → isArrayValue v = false →
        normalizeArrayFields flags { shape := [(key, t)], parse := p }
          = jsSet flags key (FlagValue.list [v])) ∧
    (jsGet flags key = none →
        normalizeArrayFields flags { shape := [(key, t)], parse := p } = flags) ∧
    (jsGet flags key = some v → isArrayValue v = true →
        normalizeArrayFields flags { shape := [(key, t)], parse := p } = flags) ∧
    (isZodArrayType t = false →
        normalizeArrayFields flags { shape := [(key, t)], parse := p } = flags) ∧
    isZodArrayType (ZodType.zodOptional t) = isZodArrayType t ∧
    isZodArrayType (ZodType.zodDefault t) = isZodArrayType t ∧
    isZodArrayType (ZodType.zodArray t) = true ∧
    normalizeArrayFields [(("files".toList), FlagValue.str ("a.txt".toList))]
        { shape := [(("files".toList), ZodType.zodArray ZodType.zodString)], parse := p }
      = [(("files".toList), FlagValue.list [FlagValue.str ("a.txt".toList)])] := by
  refine ⟨?_, ?_, ?_, ?_, rfl, rfl, rfl, rfl⟩
  · intro ht hv hav
    simp [normalizeArrayFields, hv, ht, hav]
  · intro hv
    simp [normalizeArrayFields, hv]
  · intro hv hav
    simp [normalizeArrayFields, hv, hav]
  · intro ht
    cases hv2 : jsGet flags key with
    | none => simp [normalizeArrayFields, hv2]
    | some w => simp [normalizeArrayFields, hv2, ht]

/-- C8 witness: the concrete normalization step produced by the general
rule. -/
theorem c8_witness :
    normalizeArrayFields [(("files".toList), FlagValue.str ("a.txt".toList))]
        { shape := [(("files".toList), ZodType.zodArray ZodType.zodString)],
          parse := fun _ => Except.ok (Value.obj []) }
      = jsSet [(("files".toList), FlagValue.str ("a.txt".toList))] ("files".toList)
          (FlagValue.list [FlagValue.str ("a.txt".toList)]) :=
  (c8_array_normalization [(("files".toList), FlagValue.str ("a.txt".toList))]
      ("files".toList) (ZodType.zodArray ZodType.zodString)
      (FlagValue.str ("a.txt".toList)) (fun _ => Except.ok (Value.obj []))).1 rfl rfl rfl
